import Mathlib

/-!
Verification of the session-analytics core of the grind-log backend
(`src/backend/src/main.rs`).

The Rust code stores sessions as `{id, date: String, session_type: String}`
and derives all metrics from the full record list.  We embed the relevant
functions shallowly:

* `Date` models `chrono::NaiveDate`; `toDays` is the standard
  days-from-civil computation (Gregorian, day 0 = 1970-01-01), which gives
  the semantics of `NaiveDate` subtraction (`num_days`) and of
  `weekday().num_days_from_monday()`.
* `chronoParse` models `NaiveDate::parse_from_str(s, "%Y-%m-%d")`.
  chrono's numeric scanner accepts 1 to `width` digits per field
  (`scan::number(s, 1, width)`), with width 4 for the year (unbounded when
  an explicit sign is present) and 2 for month and day, requires the whole
  input to be consumed, and then validates the calendar date; years range
  over chrono's `MIN_YEAR = -262144` to `MAX_YEAR = 262143`.
* `dateToString` models the `Display` instance of `NaiveDate`
  (zero-padded `%Y-%m-%d`, sign-prefixed year outside `0..=9999`).
* Rust `Result` values are modelled with `Except ApiError`, panics
  (`unwrap`, `panic!`) with `Option` (`none` = panic).
* `Duration::days` subtraction inside `get_week_start` is modelled as exact
  calendar-day decrement (total here; chrono would panic only when the
  result falls below `NaiveDate::MIN`, i.e. within the first week of year
  -262144).
* `itertools::sorted_by` is a stable ascending sort by the given
  comparator; we use `List.insertionSort` (stable) with the corresponding
  `≤` relation.  Rust `String` comparison is lexicographic on UTF-8 bytes,
  which coincides with lexicographic comparison of the code points
  (`charsLe`).
-/

/-- Calendar date, modelling `chrono::NaiveDate` (year, month, day). -/
structure Date where
  y : Int
  m : Nat
  d : Nat
deriving DecidableEq, Repr

/-- Model of `chrono`'s proleptic-Gregorian leap-year rule. -/
def isLeap (y : Int) : Bool :=
  (y.emod 4 == 0 && y.emod 100 != 0) || y.emod 400 == 0

/-- Days in a month of the proleptic Gregorian calendar. -/
def daysInMonth (y : Int) (m : Nat) : Nat :=
  if m = 2 then (if isLeap y then 29 else 28)
  else if m = 4 ∨ m = 6 ∨ m = 9 ∨ m = 11 then 30
  else 31

/-- Days since 1970-01-01 of a Gregorian date (days-from-civil).  This is
the value underlying `NaiveDate` subtraction: `(a - b).num_days()` is
`toDays a - toDays b`. -/
def toDays (dt : Date) : Int :=
  let y : Int := if dt.m ≤ 2 then dt.y - 1 else dt.y
  let era : Int := y.fdiv 400
  let yoe : Int := y - era * 400
  let mp : Nat := (dt.m + 9) % 12
  let doy : Int := Int.ofNat ((153 * mp + 2) / 5 + dt.d) - 1
  let doe : Int := yoe * 365 + yoe.fdiv 4 - yoe.fdiv 100 + doy
  era * 146097 + doe - 719468

/-- Model of `date.weekday().num_days_from_monday()` (Monday = 0 …
Sunday = 6).  1970-01-01 was a Thursday. -/
def numDaysFromMonday (dt : Date) : Nat :=
  ((toDays dt + 3).emod 7).toNat

/-- The calendar day before `dt` (for valid dates). -/
def decDay (dt : Date) : Date :=
  if dt.d > 1 then ⟨dt.y, dt.m, dt.d - 1⟩
  else if dt.m > 1 then ⟨dt.y, dt.m - 1, daysInMonth dt.y (dt.m - 1)⟩
  else ⟨dt.y - 1, 12, 31⟩

/-- Model of `dt - Duration::days(n)` for a natural `n`, as iterated
decrement. -/
def subDays (dt : Date) : Nat → Date
  | 0 => dt
  | n + 1 => subDays (decDay dt) n

/-- Embedding of `get_week_start` from `main.rs`: the Monday on or before
`date`. -/
def get_week_start (date : Date) : Date :=
  subDays date (numDaysFromMonday date)

/-- Digits of a natural number (used to model Rust's decimal `Display`). -/
def padNat (w n : Nat) : String :=
  let s := Nat.repr n
  String.mk (List.replicate (w - s.length) '0') ++ s

/-- Model of `NaiveDate`'s `Display` (`to_string()`): zero-padded
`YYYY-MM-DD`, with a sign-prefixed year when outside `0..=9999`. -/
def dateToString (dt : Date) : String :=
  let ys : String :=
    if 0 ≤ dt.y ∧ dt.y ≤ 9999 then padNat 4 dt.y.toNat
    else (if dt.y < 0 then "-" else "+") ++ padNat 4 dt.y.natAbs
  ys ++ "-" ++ padNat 2 dt.m ++ "-" ++ padNat 2 dt.d

/-- Take up to `w` leading decimal digits. -/
def takeDigits : Nat → List Char → (List Char × List Char)
  | 0, cs => ([], cs)
  | _ + 1, [] => ([], [])
  | w + 1, c :: cs =>
    if c.isDigit then
      let p := takeDigits w cs
      (c :: p.1, p.2)
    else ([], c :: cs)

/-- Numeric value of a digit string. -/
def digitsVal (ds : List Char) : Nat :=
  ds.foldl (fun a c => a * 10 + (c.toNat - 48)) 0

/-- Raw `%Y-%m-%d` scan, following chrono's item parser: the year takes an
optional sign (with a sign the digit count is unbounded, without it at most
4 digits), month and day take 1–2 digits, literal `-` separators, and the
whole input must be consumed. -/
def parseYMD (cs : List Char) : Option (Int × Nat × Nat) :=
  let sy : Bool × Bool × List Char × Nat :=
    match cs with
    | '-' :: r => (true, true, r, r.length)
    | '+' :: r => (true, false, r, r.length)
    | r => (false, false, r, 4)
  let hasSign := sy.1
  let neg := sy.2.1
  let rest0 := sy.2.2.1
  let maxw := sy.2.2.2
  let py := takeDigits maxw rest0
  if py.1 = [] then none
  else
    let yAbs : Int := Int.ofNat (digitsVal py.1)
    let y : Int := if hasSign ∧ neg then -yAbs else yAbs
    match py.2 with
    | '-' :: rest2 =>
      let pm := takeDigits 2 rest2
      if pm.1 = [] then none
      else
        match pm.2 with
        | '-' :: rest4 =>
          let pd := takeDigits 2 rest4
          if pd.1 = [] ∨ pd.2 ≠ [] then none
          else some (y, digitsVal pm.1, digitsVal pd.1)
        | _ => none
    | _ => none

/-- Model of `NaiveDate::parse_from_str(s, "%Y-%m-%d")`: scan, then
validate the calendar date (`from_ymd`), including chrono's year range. -/
def chronoParse (s : String) : Option Date :=
  match parseYMD s.data with
  | none => none
  | some (y, m, d) =>
    if 1 ≤ m ∧ m ≤ 12 ∧ 1 ≤ d ∧ d ≤ daysInMonth y m ∧
        -262144 ≤ y ∧ y ≤ 262143 then
      some ⟨y, m, d⟩
    else none

/-- The `Session` row from `main.rs`. -/
structure Session where
  id : Int
  date : String
  session_type : String
deriving DecidableEq, Repr

/-- The `ApiError` enum from `main.rs`. -/
inductive ApiError where
  | InvalidInput (msg : String)
  | DatabaseError (msg : String)
  | SerializationError (msg : String)
deriving DecidableEq, Repr

deriving instance DecidableEq for Except

/-- Embedding of `parse_date` from `main.rs` (wraps the chrono parse in a
`Result`). -/
def parse_date (date_str : String) : Except ApiError Date :=
  match chronoParse date_str with
  | some d => Except.ok d
  | none => Except.error (ApiError.InvalidInput "Invalid date format")

/-- Embedding of `calculate_session_points` from `main.rs`. -/
def calculate_session_points (session_type : String) : Nat :=
  if session_type = "1-hour" then 10
  else if session_type = "2-hours" then 12
  else if session_type = "3-hours" then 14
  else 0

/-- Embedding of `update_streak` from `main.rs`. -/
def update_streak (last_date : Option Date) (current_date : Date)
    (streak : Nat) : Nat :=
  match last_date with
  | some last => if toDays current_date - toDays last = 1 then streak + 1 else 1
  | none => 1

/-- Lexicographic order on code points; equals Rust's `str`/`String`
ordering (UTF-8 byte order preserves code-point order). -/
def charsLe : List Char → List Char → Bool
  | [], _ => true
  | _ :: _, [] => false
  | a :: as, b :: bs =>
    if a.toNat < b.toNat then true
    else if b.toNat < a.toNat then false
    else charsLe as bs

/-- Rust `a <= b` on `String` (i.e. `a.cmp(&b) != Greater`). -/
def strLe (a b : String) : Bool := charsLe a.data b.data

/-- Comparator used by `sessions.iter().sorted_by(|a, b| a.date.cmp(&b.date))`. -/
def sessionLe (a b : Session) : Prop := strLe a.date b.date = true

instance : DecidableRel sessionLe :=
  fun a b => inferInstanceAs (Decidable (strLe a.date b.date = true))

/-- The stable ascending sort on sessions performed by
`calculate_streak_and_points`. -/
def sortSessions (sessions : List Session) : List Session :=
  List.insertionSort sessionLe sessions

/-- The `try_fold` of `calculate_streak_and_points`: carries
`(streak, total_points, last_date)` and fails on an unparseable date. -/
def tryFoldStreak :
    Nat × Nat × Option Date → List Session →
      Except ApiError (Nat × Nat × Option Date)
  | acc, [] => Except.ok acc
  | (streak, total_points, last_date), s :: rest =>
    match parse_date s.date with
    | Except.error e => Except.error e
    | Except.ok current_date =>
      tryFoldStreak
        (update_streak last_date current_date streak,
         total_points + calculate_session_points s.session_type,
         some current_date) rest

/-- Embedding of `calculate_streak_and_points` from `main.rs`: sort by
date string,
fold, drop the final `last_date`. -/
def calculate_streak_and_points (sessions : List Session) :
    Except ApiError (Nat × Nat) :=
  (tryFoldStreak (0, 0, none) (sortSessions sessions)).map
    (fun r => (r.1, r.2.1))

/-- The `WeeklyActivity` struct from `main.rs`. -/
structure WeeklyActivity where
  week_start : String
  points : Nat
deriving DecidableEq, Repr

/-- The `StreakBonusResponse` struct from `main.rs`. -/
structure StreakBonusResponse where
  streak_length : Nat
  week_start : String
deriving DecidableEq, Repr

/-- All-or-nothing traversal; models a Rust iterator whose closure
`unwrap`s: the pipeline produces a value only if every element does. -/
def mapOpt (f : α → Option β) : List α → Option (List β)
  | [] => some []
  | a :: as =>
    match f a with
    | none => none
    | some b =>
      match mapOpt f as with
      | none => none
      | some bs => some (b :: bs)

/-- The per-session map of `calculate_trend`: parse the date (`unwrap`),
compute the period key (`panic!` on an unknown period), pair it with the
session's points. -/
def periodPair (period : String) (s : Session) : Option (String × Nat) :=
  match chronoParse s.date with
  | none => none
  | some date =>
    let key :=
      if period = "week" then some (dateToString (get_week_start date))
      else if period = "month" then
        some (Int.repr date.y ++ "-" ++ padNat 2 date.m)
      else if period = "year" then some (Int.repr date.y)
      else none
    match key with
    | none => none
    | some k => some (k, calculate_session_points s.session_type)

/-- Comparator of `calculate_trend`'s
`sorted_by(|(a, _), (b, _)| a.cmp(b))` on `(period_start, points)` pairs. -/
def pairLe (a b : String × Nat) : Prop := strLe a.1 b.1 = true

instance : DecidableRel pairLe :=
  fun a b => inferInstanceAs (Decidable (strLe a.1 b.1 = true))

/-- Model of `chunk_by` on the period key followed by summing each group:
merges consecutive pairs with equal keys, adding their points. -/
def chunkWeekly : List (String × Nat) → List WeeklyActivity
  | [] => []
  | (k, p) :: rest =>
    match chunkWeekly rest with
    | [] => [⟨k, p⟩]
    | w :: ws =>
      if w.week_start = k then ⟨k, p + w.points⟩ :: ws
      else ⟨k, p⟩ :: w :: ws

/-- Embedding of `calculate_trend` from `main.rs`.  `none` models a panic
(date
`unwrap` or `panic!("Invalid period")`); note an empty session list never
runs the closure, hence never panics. -/
def calculate_trend (sessions : List Session) (period : String) :
    Option (List WeeklyActivity) :=
  match mapOpt (periodPair period) sessions with
  | none => none
  | some pairs => some (chunkWeekly (List.insertionSort pairLe pairs))

/-- Embedding of `calculate_period_streak` from `main.rs`: count the
sessions whose
date parses and satisfies the filter. -/
def calculate_period_streak (sessions : List Session)
    (filter_fn : Date → Bool) : Nat :=
  (sessions.filter fun s =>
    match chronoParse s.date with
    | some date => filter_fn date
    | none => false).length

/-- One step of the fold inside `calculate_weekly_streak_bonus`, carrying
`(weekly_streaks, last_date, current_streak)`.  When `last_date` is `None`
the week test is `false` (`map_or`) and the streak resets to 1; the
`last_date.unwrap()` in the emission is guarded by `is_new_week`, hence
safe, which the `some last` branch makes explicit. -/
def bonusStep (acc : List (Nat × Date) × Option Date × Nat) (session_date : Date) :
    List (Nat × Date) × Option Date × Nat :=
  match acc with
  | (weekly_streaks, none, _) => (weekly_streaks, some session_date, 1)
  | (weekly_streaks, some last, streak) =>
    let week_start := get_week_start session_date
    let is_new_week := week_start ≠ get_week_start last
    let updated :=
      if is_new_week ∧ 3 ≤ streak then
        weekly_streaks ++ [(streak, get_week_start last)]
      else weekly_streaks
    let new_streak :=
      if toDays session_date - toDays last = 1 then streak + 1 else 1
    (updated, some session_date, new_streak)

/-- Conversion of an accumulated `(length, week_start)` pair into the
response struct. -/
def mkBonus (p : Nat × Date) : StreakBonusResponse :=
  ⟨p.1, dateToString p.2⟩

/-- The tail of `calculate_weekly_streak_bonus`: after the fold, append
one more window when the final `current_streak` qualifies (its
`last_date.unwrap()` is the `some last` branch; `none` = panic). -/
def bonusFinish (acc : List (Nat × Date) × Option Date × Nat) :
    Option (List StreakBonusResponse) :=
  match acc with
  | (finalized_streaks, last_date, last_streak) =>
    if 3 ≤ last_streak then
      match last_date with
      | some last =>
        some ((finalized_streaks ++ [(last_streak, get_week_start last)]).map mkBonus)
      | none => none
    else some (finalized_streaks.map mkBonus)

/-- Embedding of `calculate_weekly_streak_bonus` from `main.rs`.  The
iterator maps
`parse_date(...).unwrap()` over the sessions in the order given (no sort)
and folds; `none` models the panic on an unparseable date. -/
def calculate_weekly_streak_bonus (sessions : List Session) :
    Option (List StreakBonusResponse) :=
  match mapOpt (fun s => chronoParse s.date) sessions with
  | none => none
  | some dates => bonusFinish (dates.foldl bonusStep ([], none, 0))

/-- Embedding of `calculate_statistics` from `main.rs`.  The outer
`Option` models the
panic reachable through `calculate_trend`; the inner `Except` is the
function's `Result`.  The yearly filter is `date.year() == current_year`,
the monthly filter is `date.month() == current_month`. -/
def calculate_statistics (sessions : List Session) (current_date : Date) :
    Option (Except ApiError
      (List WeeklyActivity × List String × Nat × Nat × Nat)) :=
  match calculate_trend sessions "week" with
  | none => none
  | some weekly_trend =>
    match calculate_streak_and_points sessions with
    | Except.error e => some (Except.error e)
    | Except.ok (overall_streak, _total_points) =>
      let achievements :=
        if 7 ≤ overall_streak then ["7-day streak"] else []
      let yearly_streak :=
        calculate_period_streak sessions (fun date => date.y == current_date.y)
      let monthly_streak :=
        calculate_period_streak sessions (fun date => date.m == current_date.m)
      some (Except.ok
        (weekly_trend, achievements, overall_streak, yearly_streak,
         monthly_streak))

/-- Key order on trend buckets ("non-decreasing bucket keys"). -/
def bucketLe (a b : WeeklyActivity) : Prop :=
  strLe a.week_start b.week_start = true

/-! ### Concrete inputs used in counterexamples and witnesses -/

/-- The sample session list used by the repository's own tests. -/
def sampleSessions : List Session :=
  [⟨1, "2023-10-01", "1-hour"⟩, ⟨2, "2023-10-02", "2-hours"⟩,
   ⟨3, "2023-10-03", "3-hours"⟩]

/-- Three one-hour sessions on consecutive days, listed sorted by date. -/
def c1sorted : List Session :=
  [⟨1, "2023-10-02", "1-hour"⟩, ⟨2, "2023-10-03", "1-hour"⟩,
   ⟨3, "2023-10-04", "1-hour"⟩]

/-- The same three sessions, permuted (latest first). -/
def c1perm : List Session :=
  [⟨3, "2023-10-04", "1-hour"⟩, ⟨1, "2023-10-02", "1-hour"⟩,
   ⟨2, "2023-10-03", "1-hour"⟩]

/-- A single session in October of an earlier year. -/
def c2l : List Session := [⟨1, "2022-10-01", "1-hour"⟩]

/-- The "current date" used against `c2l`. -/
def c2cur : Date := ⟨2023, 10, 15⟩

/-- Boolean month filter as `calculate_statistics` builds it, lifted to a
session (false when the date does not parse, as in
`calculate_period_streak`). -/
def monthMatches (cur : Date) (s : Session) : Bool :=
  match chronoParse s.date with
  | some d => d.m == cur.m
  | none => false

/-- Same-year-and-same-month filter (what the claim asserts). -/
def sameCalendarMonth (cur : Date) (s : Session) : Bool :=
  match chronoParse s.date with
  | some d => d.y == cur.y && d.m == cur.m
  | none => false

/-- Two consecutive days whose chrono-accepted date strings sort, as
strings, in the opposite order of the dates ("2023-10-10" < "2023-10-9"). -/
def c3l : List Session :=
  [⟨1, "2023-10-9", "1-hour"⟩, ⟨2, "2023-10-10", "1-hour"⟩]

/-- Generic session filter used by `calculate_period_streak`'s claims. -/
def dateMatches (f : Date → Bool) (s : Session) : Bool :=
  match chronoParse s.date with
  | some d => f d
  | none => false

/-- A permutation of `sampleSessions` (first two entries swapped). -/
def samplePerm : List Session :=
  [⟨2, "2023-10-02", "2-hours"⟩, ⟨1, "2023-10-01", "1-hour"⟩,
   ⟨3, "2023-10-03", "3-hours"⟩]

/-! ### Order properties of the string comparator -/

theorem charsLe_cons (a b : Char) (as bs : List Char) :
    charsLe (a :: as) (b :: bs) =
      (if a.toNat < b.toNat then true
       else if b.toNat < a.toNat then false
       else charsLe as bs) := rfl

theorem charsLe_total : ∀ as bs : List Char,
    charsLe as bs = true ∨ charsLe bs as = true
  | [], _ => Or.inl rfl
  | _ :: _, [] => Or.inr rfl
  | a :: as, b :: bs => by
    rcases Nat.lt_trichotomy a.toNat b.toNat with h | h | h
    · exact Or.inl (by simp [charsLe_cons, h])
    · rcases charsLe_total as bs with h2 | h2
      · exact Or.inl (by simp [charsLe_cons, h, h2])
      · exact Or.inr (by simp [charsLe_cons, h, h2])
    · exact Or.inr (by simp [charsLe_cons, h])

theorem charsLe_trans : ∀ as bs cs : List Char,
    charsLe as bs = true → charsLe bs cs = true → charsLe as cs = true
  | [], _, _ => fun _ _ => rfl
  | _ :: _, [], _ => fun h _ => by simp [charsLe] at h
  | _ :: _, _ :: _, [] => fun _ h => by simp [charsLe] at h
  | a :: as, b :: bs, c :: cs => fun h1 h2 => by
    rw [charsLe_cons] at h1 h2 ⊢
    by_cases hab : a.toNat < b.toNat
    · by_cases hbc : b.toNat < c.toNat
      · rw [if_pos (Nat.lt_trans hab hbc)]
      · by_cases hcb : c.toNat < b.toNat
        · rw [if_neg hbc, if_pos hcb] at h2
          exact absurd h2 (by simp)
        · rw [if_pos (by omega : a.toNat < c.toNat)]
    · by_cases hba : b.toNat < a.toNat
      · rw [if_neg hab, if_pos hba] at h1
        exact absurd h1 (by simp)
      · by_cases hbc : b.toNat < c.toNat
        · rw [if_pos (by omega : a.toNat < c.toNat)]
        · by_cases hcb : c.toNat < b.toNat
          · rw [if_neg hbc, if_pos hcb] at h2
            exact absurd h2 (by simp)
          · rw [if_neg hab, if_neg hba] at h1
            rw [if_neg hbc, if_neg hcb] at h2
            rw [if_neg (by omega : ¬ a.toNat < c.toNat),
              if_neg (by omega : ¬ c.toNat < a.toNat)]
            exact charsLe_trans as bs cs h1 h2

theorem strLe_total (a b : String) : strLe a b = true ∨ strLe b a = true :=
  charsLe_total a.data b.data

theorem strLe_trans {a b c : String} (h1 : strLe a b = true)
    (h2 : strLe b c = true) : strLe a c = true :=
  charsLe_trans a.data b.data c.data h1 h2

instance : IsTotal Session sessionLe :=
  ⟨fun a b => strLe_total a.date b.date⟩

instance : IsTrans Session sessionLe :=
  ⟨fun _ _ _ => strLe_trans⟩

instance : IsTotal (String × Nat) pairLe :=
  ⟨fun a b => strLe_total a.1 b.1⟩

instance : IsTrans (String × Nat) pairLe :=
  ⟨fun _ _ _ => strLe_trans⟩


/-! ### Behaviour of the streak fold -/

theorem tryFoldStreak_points (ss : List Session) :
    ∀ (st pts : Nat) (last : Option Date) (r : Nat × Nat × Option Date),
      tryFoldStreak (st, pts, last) ss = Except.ok r →
      r.2.1 = pts +
        (ss.map fun s => calculate_session_points s.session_type).sum := by
  induction ss with
  | nil =>
    intro st pts last r h
    simp only [tryFoldStreak, Except.ok.injEq] at h
    simp [← h]
  | cons s rest ih =>
    intro st pts last r h
    simp only [tryFoldStreak] at h
    cases hp : parse_date s.date with
    | error e => rw [hp] at h; cases h
    | ok cur =>
      rw [hp] at h
      have := ih _ _ _ _ h
      simp only [List.map_cons, List.sum_cons]
      omega

theorem tryFoldStreak_ok (ss : List Session) :
    ∀ (st pts : Nat) (last : Option Date),
      (∀ s ∈ ss, (chronoParse s.date).isSome) →
      ∃ st2 last2,
        tryFoldStreak (st, pts, last) ss =
          Except.ok (st2,
            pts + (ss.map fun s => calculate_session_points s.session_type).sum,
            last2) := by
  induction ss with
  | nil =>
    intro st pts last _
    exact ⟨st, last, by simp [tryFoldStreak]⟩
  | cons s rest ih =>
    intro st pts last hall
    have hs : (chronoParse s.date).isSome := hall s (by simp)
    obtain ⟨d, hd⟩ := Option.isSome_iff_exists.mp hs
    have hrest : ∀ t ∈ rest, (chronoParse t.date).isSome :=
      fun t ht => hall t (by simp [ht])
    obtain ⟨st2, last2, h2⟩ :=
      ih (update_streak last d st)
        (pts + calculate_session_points s.session_type) (some d) hrest
    refine ⟨st2, last2, ?_⟩
    simp only [tryFoldStreak, parse_date, hd]
    rw [h2]
    simp only [List.map_cons, List.sum_cons]
    rw [Nat.add_assoc]

theorem tryFoldStreak_error (ss : List Session) :
    ∀ acc : Nat × Nat × Option Date,
      (∃ s ∈ ss, chronoParse s.date = none) →
      tryFoldStreak acc ss =
        Except.error (ApiError.InvalidInput "Invalid date format") := by
  induction ss with
  | nil =>
    intro acc hex
    simp at hex
  | cons s rest ih =>
    intro acc hex
    obtain ⟨a1, a2, a3⟩ := acc
    by_cases hs : chronoParse s.date = none
    · simp [tryFoldStreak, parse_date, hs]
    · obtain ⟨d, hd⟩ := Option.ne_none_iff_exists'.mp hs
      have hrest : ∃ t ∈ rest, chronoParse t.date = none := by
        obtain ⟨t, ht, htn⟩ := hex
        cases List.mem_cons.mp ht with
        | inl h => exact absurd (h ▸ htn) hs
        | inr h => exact ⟨t, h, htn⟩
      simp only [tryFoldStreak, parse_date, hd]
      exact ih _ hrest

/-! ### All-or-nothing traversal -/

theorem mapOpt_isSome (f : α → Option β) :
    ∀ l : List α, (∀ a ∈ l, (f a).isSome) → (mapOpt f l).isSome := by
  intro l
  induction l with
  | nil => intro _; simp [mapOpt]
  | cons a as ih =>
    intro hall
    obtain ⟨b, hb⟩ := Option.isSome_iff_exists.mp (hall a (by simp))
    have has : ∀ x ∈ as, (f x).isSome := fun x hx => hall x (by simp [hx])
    obtain ⟨bs, hbs⟩ := Option.isSome_iff_exists.mp (ih has)
    simp [mapOpt, hb, hbs]

theorem mapOpt_cons (f : α → Option β) (a : α) (as : List α)
    (bs : List β) (h : mapOpt f (a :: as) = some bs) :
    ∃ b bs2, f a = some b ∧ mapOpt f as = some bs2 ∧ bs = b :: bs2 := by
  simp only [mapOpt] at h
  cases hfa : f a with
  | none => rw [hfa] at h; cases h
  | some b =>
    rw [hfa] at h
    cases hrest : mapOpt f as with
    | none => rw [hrest] at h; cases h
    | some bs2 =>
      rw [hrest] at h
      simp only [Option.some.injEq] at h
      exact ⟨b, bs2, rfl, rfl, h.symm⟩

theorem mapOpt_nil_inv (f : α → Option β) (bs : List β)
    (h : mapOpt f [] = some bs) : bs = [] := by
  simp only [mapOpt, Option.some.injEq] at h
  exact h.symm

/-! ### Streak over consecutive days -/

theorem tryFoldStreak_chain (ss : List Session) :
    ∀ (ds : List Date) (st pts : Nat) (last : Date),
      mapOpt (fun s => chronoParse s.date) ss = some ds →
      List.Chain' (fun a b => toDays b - toDays a = 1) (last :: ds) →
      ∃ pts2 last2,
        tryFoldStreak (st, pts, some last) ss =
          Except.ok (st + ss.length, pts2, last2) := by
  induction ss with
  | nil =>
    intro ds st pts last hmap _
    exact ⟨pts, some last, by simp [tryFoldStreak]⟩
  | cons s rest ih =>
    intro ds st pts last hmap hchain
    obtain ⟨d, ds2, hd, hrest, hds⟩ := mapOpt_cons _ s rest ds hmap
    subst hds
    have hstep : toDays d - toDays last = 1 :=
      (List.chain'_cons.mp hchain).1
    have hchain2 : List.Chain' (fun a b => toDays b - toDays a = 1) (d :: ds2) :=
      (List.chain'_cons.mp hchain).2
    obtain ⟨pts2, last2, h2⟩ :=
      ih ds2 (st + 1) (pts + calculate_session_points s.session_type) d
        hrest hchain2
    refine ⟨pts2, last2, ?_⟩
    simp only [tryFoldStreak, parse_date, hd, update_streak, if_pos hstep]
    rw [h2, List.length_cons]
    rw [show st + 1 + rest.length = st + (rest.length + 1) from by omega]

/-! ### Bonus-window fold invariants -/

theorem bonusFold_ge3 (ds : List Date) :
    ∀ acc : List (Nat × Date) × Option Date × Nat,
      (∀ p ∈ acc.1, 3 ≤ p.1) →
      ∀ p ∈ (ds.foldl bonusStep acc).1, 3 ≤ p.1 := by
  induction ds with
  | nil => intro acc h; exact h
  | cons d rest ih =>
    intro acc hacc
    rw [List.foldl_cons]
    apply ih
    obtain ⟨ws, lastOpt, streak⟩ := acc
    cases lastOpt with
    | none => exact hacc
    | some last =>
      simp only [bonusStep]
      by_cases hcond :
          get_week_start d ≠ get_week_start last ∧ 3 ≤ streak
      · rw [if_pos hcond]
        intro p hp
        cases List.mem_append.mp hp with
        | inl h => exact hacc p h
        | inr h =>
          have : p = (streak, get_week_start last) := by
            simpa using h
          rw [this]
          exact hcond.2
      · rw [if_neg hcond]
        exact hacc

theorem bonusFold_last (ds : List Date) :
    ∀ (acc : List (Nat × Date) × Option Date × Nat),
      ds ≠ [] → ∃ d, (ds.foldl bonusStep acc).2.1 = some d := by
  induction ds with
  | nil => intro acc h; exact absurd rfl h
  | cons d rest ih =>
    intro acc _
    rw [List.foldl_cons]
    by_cases hr : rest = []
    · subst hr
      obtain ⟨ws, lastOpt, streak⟩ := acc
      cases lastOpt with
      | none => exact ⟨d, rfl⟩
      | some last => exact ⟨d, rfl⟩
    · exact ih _ hr
/-! ### Chunking of the sorted trend pairs -/

theorem chunkWeekly_cons_nil (k : String) (p : Nat)
    (rest : List (String × Nat)) (h : chunkWeekly rest = []) :
    chunkWeekly ((k, p) :: rest) = [⟨k, p⟩] := by
  simp only [chunkWeekly, h]

theorem chunkWeekly_cons_cons (k : String) (p : Nat)
    (rest : List (String × Nat)) (w : WeeklyActivity)
    (ws : List WeeklyActivity) (h : chunkWeekly rest = w :: ws) :
    chunkWeekly ((k, p) :: rest) =
      (if w.week_start = k then ⟨k, p + w.points⟩ :: ws
       else ⟨k, p⟩ :: w :: ws) := by
  simp only [chunkWeekly, h]

theorem chunkWeekly_sum : ∀ l : List (String × Nat),
    ((chunkWeekly l).map (fun w => w.points)).sum = (l.map Prod.snd).sum := by
  intro l
  induction l with
  | nil => simp [chunkWeekly]
  | cons kp rest ih =>
    obtain ⟨k, p⟩ := kp
    cases h : chunkWeekly rest with
    | nil =>
      rw [h] at ih
      simp only [List.map_nil, List.sum_nil] at ih
      rw [chunkWeekly_cons_nil k p rest h]
      simp [← ih]
    | cons w ws =>
      rw [h] at ih
      rw [chunkWeekly_cons_cons k p rest w ws h]
      by_cases hw : w.week_start = k
      · rw [if_pos hw]
        simp only [List.map_cons, List.sum_cons] at ih ⊢
        omega
      · rw [if_neg hw]
        simp only [List.map_cons, List.sum_cons] at ih ⊢
        omega

theorem chunkWeekly_keys_mem : ∀ (l : List (String × Nat)) (w : WeeklyActivity),
    w ∈ chunkWeekly l → w.week_start ∈ l.map Prod.fst := by
  intro l
  induction l with
  | nil => intro w hw; simp [chunkWeekly] at hw
  | cons kp rest ih =>
    obtain ⟨k, p⟩ := kp
    intro w hw
    cases h : chunkWeekly rest with
    | nil =>
      rw [chunkWeekly_cons_nil k p rest h] at hw
      simp only [List.mem_singleton] at hw
      simp [hw]
    | cons w0 ws =>
      rw [chunkWeekly_cons_cons k p rest w0 ws h] at hw
      by_cases hw0 : w0.week_start = k
      · rw [if_pos hw0] at hw
        cases List.mem_cons.mp hw with
        | inl he => simp [he]
        | inr he =>
          have hmem : w ∈ chunkWeekly rest := by
            rw [h]; exact List.mem_cons_of_mem w0 he
          have := ih w hmem
          simp only [List.map_cons]
          exact List.mem_cons_of_mem k this
      · rw [if_neg hw0] at hw
        cases List.mem_cons.mp hw with
        | inl he => simp [he]
        | inr he =>
          have hmem : w ∈ chunkWeekly rest := by rw [h]; exact he
          have := ih w hmem
          simp only [List.map_cons]
          exact List.mem_cons_of_mem k this

theorem chunkWeekly_sorted : ∀ l : List (String × Nat),
    List.Pairwise pairLe l → List.Pairwise bucketLe (chunkWeekly l) := by
  intro l
  induction l with
  | nil => intro _; simp [chunkWeekly]
  | cons kp rest ih =>
    obtain ⟨k, p⟩ := kp
    intro hp
    have hhead : ∀ q ∈ rest, pairLe (k, p) q := (List.pairwise_cons.mp hp).1
    have hrest : List.Pairwise pairLe rest := (List.pairwise_cons.mp hp).2
    have ihr := ih hrest
    have hkeys : ∀ w : WeeklyActivity, w ∈ chunkWeekly rest →
        strLe k w.week_start = true := by
      intro w hw
      obtain ⟨q, hq, hqe⟩ := List.mem_map.mp (chunkWeekly_keys_mem rest w hw)
      have hle := hhead q hq
      unfold pairLe at hle
      rw [hqe] at hle
      exact hle
    cases h : chunkWeekly rest with
    | nil => rw [chunkWeekly_cons_nil k p rest h]; simp
    | cons w0 ws =>
      rw [h] at ihr
      rw [chunkWeekly_cons_cons k p rest w0 ws h]
      by_cases hw0 : w0.week_start = k
      · rw [if_pos hw0]
        apply List.pairwise_cons.mpr
        refine ⟨?_, (List.pairwise_cons.mp ihr).2⟩
        intro v hv
        have := (List.pairwise_cons.mp ihr).1 v hv
        unfold bucketLe at this ⊢
        rw [hw0] at this
        exact this
      · rw [if_neg hw0]
        apply List.pairwise_cons.mpr
        refine ⟨?_, ihr⟩
        intro v hv
        unfold bucketLe
        have hv2 : v ∈ chunkWeekly rest := by rw [h]; exact hv
        exact hkeys v hv2

/-! ### Linking lemmas -/

theorem periodPair_snd (period : String) (s : Session) (b : String × Nat)
    (h : periodPair period s = some b) :
    b.2 = calculate_session_points s.session_type := by
  cases hc : chronoParse s.date with
  | none => simp [periodPair, hc] at h
  | some d =>
    by_cases h1 : period = "week"
    · simp only [periodPair, hc, h1, if_pos, Option.some.injEq] at h
      rw [← h]
    · by_cases h2 : period = "month"
      · subst h2
        simp [periodPair, hc] at h
        rw [← h]
      · by_cases h3 : period = "year"
        · subst h3
          simp [periodPair, hc, h1, h2] at h
          rw [← h]
        · simp [periodPair, hc, h1, h2, h3] at h

theorem mapOpt_periodPair_snd (period : String) :
    ∀ (l : List Session) (pairs : List (String × Nat)),
      mapOpt (periodPair period) l = some pairs →
      pairs.map Prod.snd =
        l.map (fun s => calculate_session_points s.session_type) := by
  intro l
  induction l with
  | nil =>
    intro pairs h
    rw [mapOpt_nil_inv _ pairs h]
    simp
  | cons s rest ih =>
    intro pairs h
    obtain ⟨b, bs2, hb, hrest, hps⟩ := mapOpt_cons _ s rest pairs h
    subst hps
    simp only [List.map_cons]
    rw [ih bs2 hrest, periodPair_snd period s b hb]

theorem calculate_trend_inv (l : List Session) (period : String)
    (buckets : List WeeklyActivity)
    (h : calculate_trend l period = some buckets) :
    ∃ pairs, mapOpt (periodPair period) l = some pairs ∧
      buckets = chunkWeekly (List.insertionSort pairLe pairs) := by
  unfold calculate_trend at h
  cases hm : mapOpt (periodPair period) l with
  | none => rw [hm] at h; cases h
  | some pairs =>
    rw [hm] at h
    simp only [Option.some.injEq] at h
    exact ⟨pairs, rfl, h.symm⟩

theorem streak_ok_points (l : List Session) (st tp : Nat)
    (h : calculate_streak_and_points l = Except.ok (st, tp)) :
    tp = (l.map fun s => calculate_session_points s.session_type).sum := by
  unfold calculate_streak_and_points at h
  cases hf : tryFoldStreak (0, 0, none) (sortSessions l) with
  | error e => rw [hf] at h; cases h
  | ok r =>
    rw [hf] at h
    simp only [Except.map, Except.ok.injEq, Prod.mk.injEq] at h
    have hp := tryFoldStreak_points (sortSessions l) 0 0 none r hf
    rw [Nat.zero_add] at hp
    have hsum :
        ((sortSessions l).map fun s => calculate_session_points s.session_type).sum =
          (l.map fun s => calculate_session_points s.session_type).sum :=
      (List.Perm.map _ (List.perm_insertionSort sessionLe l)).sum_eq
    rw [← h.2, hp, hsum]

theorem streak_isOk_of_valid (l : List Session)
    (hall : ∀ s ∈ l, (chronoParse s.date).isSome) :
    ∃ st tp, calculate_streak_and_points l = Except.ok (st, tp) := by
  have hall2 : ∀ s ∈ sortSessions l, (chronoParse s.date).isSome := by
    intro s hs
    exact hall s ((List.mem_insertionSort sessionLe).mp hs)
  obtain ⟨st2, last2, h2⟩ := tryFoldStreak_ok (sortSessions l) 0 0 none hall2
  refine ⟨st2,
    0 + ((sortSessions l).map fun s => calculate_session_points s.session_type).sum,
    ?_⟩
  unfold calculate_streak_and_points
  rw [h2]
  rfl


/-! ### Inversion helpers for the composed functions -/

theorem bonus_eq (l : List Session) (ds : List Date)
    (hm : mapOpt (fun s => chronoParse s.date) l = some ds) :
    calculate_weekly_streak_bonus l =
      bonusFinish (ds.foldl bonusStep ([], none, 0)) := by
  unfold calculate_weekly_streak_bonus
  rw [hm]

theorem stats_eq (l : List Session) (cur : Date)
    (wt : List WeeklyActivity) (st tp : Nat)
    (ht : calculate_trend l "week" = some wt)
    (hs : calculate_streak_and_points l = Except.ok (st, tp)) :
    calculate_statistics l cur =
      some (Except.ok
        (wt, (if 7 ≤ st then ["7-day streak"] else []), st,
         calculate_period_streak l (fun date => date.y == cur.y),
         calculate_period_streak l (fun date => date.m == cur.m))) := by
  unfold calculate_statistics
  rw [ht, hs]

theorem stats_ok_inv (l : List Session) (cur : Date)
    (wt : List WeeklyActivity) (ach : List String) (st yr mo : Nat)
    (h : calculate_statistics l cur =
      some (Except.ok (wt, ach, st, yr, mo))) :
    calculate_trend l "week" = some wt ∧
    (∃ tp, calculate_streak_and_points l = Except.ok (st, tp)) ∧
    ach = (if 7 ≤ st then ["7-day streak"] else []) ∧
    yr = calculate_period_streak l (fun date => date.y == cur.y) ∧
    mo = calculate_period_streak l (fun date => date.m == cur.m) := by
  unfold calculate_statistics at h
  cases ht : calculate_trend l "week" with
  | none => rw [ht] at h; cases h
  | some wt2 =>
    rw [ht] at h
    cases hs : calculate_streak_and_points l with
    | error e => rw [hs] at h; simp at h
    | ok p =>
      obtain ⟨ov, tp⟩ := p
      rw [hs] at h
      simp only [Option.some.injEq, Except.ok.injEq, Prod.mk.injEq] at h
      obtain ⟨h1, h2, h3, h4, h5⟩ := h
      refine ⟨?_, ⟨tp, ?_⟩, ?_, h4.symm, h5.symm⟩
      · rw [h1]
      · rw [h3]
      · rw [← h2, h3]

theorem length_filter_filter (g h : α → Bool)
    (hgh : ∀ a, g a = true → h a = true) :
    ∀ l : List α, ((l.filter h).filter g).length = (l.filter g).length := by
  intro l
  induction l with
  | nil => rfl
  | cons a l ih =>
    by_cases hha : h a = true
    · by_cases hga : g a = true
      · rw [List.filter_cons, if_pos hha, List.filter_cons, if_pos hga,
          List.filter_cons, if_pos hga, List.length_cons, List.length_cons, ih]
      · rw [List.filter_cons, if_pos hha, List.filter_cons, if_neg hga,
          List.filter_cons, if_neg hga, ih]
    · have hga : ¬ g a = true := fun hg => hha (hgh a hg)
      rw [List.filter_cons, if_neg hha, List.filter_cons, if_neg hga, ih]

/-! ### Claim theorems -/

/-- C10: `calculate_period_streak` returns the count of exactly those
records whose date string parses and whose parsed date satisfies the
filter; records with unparseable dates are silently excluded (dropping
them does not change the result), and the function is total. -/
theorem claim10_period_streak_counts_parsed (l : List Session)
    (f : Date → Bool) :
    calculate_period_streak l f = l.countP (dateMatches f) ∧
    calculate_period_streak l f =
      calculate_period_streak
        (l.filter fun s => (chronoParse s.date).isSome) f := by
  constructor
  · rw [List.countP_eq_length_filter]
    rfl
  · have hgh : ∀ s : Session,
        dateMatches f s = true → (chronoParse s.date).isSome = true := by
      intro s hs
      unfold dateMatches at hs
      cases hc : chronoParse s.date with
      | none => rw [hc] at hs; cases hs
      | some d => simp
    exact
      (length_filter_filter (dateMatches f)
        (fun s => (chronoParse s.date).isSome) hgh l).symm

theorem bonus_none (l : List Session)
    (hm : mapOpt (fun s => chronoParse s.date) l = none) :
    calculate_weekly_streak_bonus l = none := by
  unfold calculate_weekly_streak_bonus
  rw [hm]

/-- C4: for the three records dated 2023-10-01, 2023-10-02 and 2023-10-04
(any ids and session types), the more-than-one-day gap before 10-04 resets
the trailing streak: `calculate_streak_and_points` returns streak 1
together with the sum of all three records' point values. -/
theorem claim4_gap_resets_trailing_streak (i1 i2 i3 : Int)
    (t1 t2 t3 : String) :
    calculate_streak_and_points
      [⟨i1, "2023-10-01", t1⟩, ⟨i2, "2023-10-02", t2⟩,
       ⟨i3, "2023-10-04", t3⟩] =
      Except.ok (1,
        calculate_session_points t1 + calculate_session_points t2 +
          calculate_session_points t3) := by
  have hsort : sortSessions
      [⟨i1, "2023-10-01", t1⟩, ⟨i2, "2023-10-02", t2⟩,
       ⟨i3, "2023-10-04", t3⟩] =
      [⟨i1, "2023-10-01", t1⟩, ⟨i2, "2023-10-02", t2⟩,
       ⟨i3, "2023-10-04", t3⟩] := by
    apply List.Sorted.insertionSort_eq
    refine List.pairwise_cons.mpr ⟨?_, List.pairwise_cons.mpr
      ⟨?_, List.pairwise_singleton _ _⟩⟩
    · intro b hb
      rcases List.mem_cons.mp hb with hb2 | hb2
      · subst hb2
        exact (by decide : strLe "2023-10-01" "2023-10-02" = true)
      · rw [List.mem_singleton.mp hb2]
        exact (by decide : strLe "2023-10-01" "2023-10-04" = true)
    · intro b hb
      rw [List.mem_singleton.mp hb]
      exact (by decide : strLe "2023-10-02" "2023-10-04" = true)
  have h1 : chronoParse "2023-10-01" = some ⟨2023, 10, 1⟩ := by decide
  have h2 : chronoParse "2023-10-02" = some ⟨2023, 10, 2⟩ := by decide
  have h3 : chronoParse "2023-10-04" = some ⟨2023, 10, 4⟩ := by decide
  have u1 : update_streak none ⟨2023, 10, 1⟩ 0 = 1 := rfl
  have u2 : update_streak (some ⟨2023, 10, 1⟩) ⟨2023, 10, 2⟩ 1 = 2 := by
    decide
  have u3 : update_streak (some ⟨2023, 10, 2⟩) ⟨2023, 10, 4⟩ 2 = 1 := by
    decide
  unfold calculate_streak_and_points
  rw [hsort]
  simp only [tryFoldStreak, parse_date, h1, h2, h3, u1, u2, u3]
  simp [Except.map, Nat.zero_add]

/-- C7: every window produced by `calculate_weekly_streak_bonus` has a
streak length of at least 3, since both the in-fold emission and the final
emission are guarded by `streak >= 3`. -/
theorem claim7_bonus_windows_ge3 (l : List Session)
    (r : List StreakBonusResponse)
    (h : calculate_weekly_streak_bonus l = some r) :
    ∀ w ∈ r, 3 ≤ w.streak_length := by
  cases hm : mapOpt (fun s => chronoParse s.date) l with
  | none => rw [bonus_none l hm] at h; cases h
  | some ds =>
    rw [bonus_eq l ds hm] at h
    have hfin : ∀ p ∈ (ds.foldl bonusStep ([], none, 0)).1, 3 ≤ p.1 :=
      bonusFold_ge3 ds ([], none, 0) (by simp)
    rcases hf : ds.foldl bonusStep ([], none, 0) with ⟨fin, lastOpt, lastStreak⟩
    rw [hf] at h hfin
    simp only [bonusFinish] at h
    by_cases hls : 3 ≤ lastStreak
    · rw [if_pos hls] at h
      cases lastOpt with
      | none => cases h
      | some last =>
        simp only [Option.some.injEq] at h
        subst h
        intro w hw
        obtain ⟨p, hp, hpe⟩ := List.mem_map.mp hw
        rcases List.mem_append.mp hp with hp2 | hp2
        · rw [← hpe]; exact hfin p hp2
        · have hpv : p = (lastStreak, get_week_start last) := by
            simpa using hp2
          rw [← hpe, hpv]
          exact hls
    · rw [if_neg hls] at h
      simp only [Option.some.injEq] at h
      subst h
      intro w hw
      obtain ⟨p, hp, hpe⟩ := List.mem_map.mp hw
      rw [← hpe]
      exact hfin p hp

theorem claim7_bonus_windows_ge3_witness :
    3 ≤ (⟨3, "2023-10-02"⟩ : StreakBonusResponse).streak_length :=
  claim7_bonus_windows_ge3 c1sorted [⟨3, "2023-10-02"⟩] (by decide)
    ⟨3, "2023-10-02"⟩ (by decide)

/-- C8: in `calculate_statistics`, the achievements list equals
`["7-day streak"]` exactly when the overall streak is at least 7, and is
empty otherwise. -/
theorem claim8_achievements_iff (l : List Session) (cur : Date)
    (wt : List WeeklyActivity) (ach : List String) (st yr mo : Nat)
    (h : calculate_statistics l cur =
      some (Except.ok (wt, ach, st, yr, mo))) :
    (ach = ["7-day streak"] ↔ 7 ≤ st) ∧ (st < 7 → ach = []) := by
  obtain ⟨-, -, hach, -, -⟩ := stats_ok_inv l cur wt ach st yr mo h
  by_cases h7 : 7 ≤ st
  · rw [if_pos h7] at hach
    subst hach
    exact ⟨⟨fun _ => h7, fun _ => rfl⟩, fun hlt => absurd h7 (by omega)⟩
  · rw [if_neg h7] at hach
    subst hach
    refine ⟨⟨fun he => ?_, fun hge => absurd hge h7⟩, fun _ => rfl⟩
    simp at he

theorem claim8_achievements_iff_witness :
    (([] : List String) = ["7-day streak"] ↔ 7 ≤ 3) ∧
    (3 < 7 → ([] : List String) = []) :=
  claim8_achievements_iff sampleSessions ⟨2023, 10, 15⟩
    [⟨"2023-09-25", 10⟩, ⟨"2023-10-02", 26⟩] [] 3 3 3 (by decide)

/-- C9: `calculate_trend` (for each of the three internally used periods)
and `calculate_weekly_streak_bonus` `unwrap`/`panic!` instead of returning
an error, but under the precondition that every record's date parses, the
panic branches are unreachable and both functions return a value. -/
theorem claim9_totality_under_valid_dates (l : List Session)
    (period : String)
    (hp : period = "week" ∨ period = "month" ∨ period = "year")
    (hall : ∀ s ∈ l, (chronoParse s.date).isSome) :
    (calculate_trend l period).isSome ∧
    (calculate_weekly_streak_bonus l).isSome := by
  constructor
  · have hpp : ∀ s ∈ l, (periodPair period s).isSome := by
      intro s hs
      obtain ⟨d, hd⟩ := Option.isSome_iff_exists.mp (hall s hs)
      rcases hp with h | h | h <;> subst h <;> simp [periodPair, hd]
    obtain ⟨pairs, hpairs⟩ :=
      Option.isSome_iff_exists.mp (mapOpt_isSome _ l hpp)
    unfold calculate_trend
    rw [hpairs]
    rfl
  · obtain ⟨ds, hmds⟩ :=
      Option.isSome_iff_exists.mp (mapOpt_isSome (fun s => chronoParse s.date) l hall)
    rw [bonus_eq l ds hmds]
    cases ds with
    | nil => decide
    | cons d rest =>
      obtain ⟨dl, hdl⟩ := bonusFold_last (d :: rest) ([], none, 0) (by simp)
      rcases hfv : (d :: rest).foldl bonusStep ([], none, 0) with
        ⟨fin, lastOpt, lastStreak⟩
      rw [hfv] at hdl
      have hlo : lastOpt = some dl := hdl
      subst hlo
      simp only [bonusFinish]
      by_cases hls : 3 ≤ lastStreak
      · simp [hls]
      · simp [hls]

theorem claim9_totality_witness :
    (calculate_trend sampleSessions "week").isSome ∧
    (calculate_weekly_streak_bonus sampleSessions).isSome :=
  claim9_totality_under_valid_dates sampleSessions "week" (Or.inl rfl)
    (by decide)

/-- C5: the totalPoints component of `calculate_streak_and_points` is
order-independent: permuted inputs yield the same second component (also
in the error case, where both orderings fail with the same error). -/
theorem claim5_total_points_perm_invariant (l1 l2 : List Session)
    (hperm : l1.Perm l2) :
    (calculate_streak_and_points l1).map Prod.snd =
      (calculate_streak_and_points l2).map Prod.snd := by
  by_cases hbad : ∃ s ∈ l1, chronoParse s.date = none
  · have hbad2 : ∃ s ∈ l2, chronoParse s.date = none := by
      obtain ⟨s, hs, hn⟩ := hbad
      exact ⟨s, hperm.mem_iff.mp hs, hn⟩
    have e1 : calculate_streak_and_points l1 =
        Except.error (ApiError.InvalidInput "Invalid date format") := by
      unfold calculate_streak_and_points
      rw [tryFoldStreak_error (sortSessions l1) _ ?_]
      · rfl
      · obtain ⟨s, hs, hn⟩ := hbad
        exact ⟨s, (List.mem_insertionSort sessionLe).mpr hs, hn⟩
    have e2 : calculate_streak_and_points l2 =
        Except.error (ApiError.InvalidInput "Invalid date format") := by
      unfold calculate_streak_and_points
      rw [tryFoldStreak_error (sortSessions l2) _ ?_]
      · rfl
      · obtain ⟨s, hs, hn⟩ := hbad2
        exact ⟨s, (List.mem_insertionSort sessionLe).mpr hs, hn⟩
    rw [e1, e2]
  · have hall1 : ∀ s ∈ l1, (chronoParse s.date).isSome := by
      intro s hs
      cases hc : chronoParse s.date with
      | none => exact absurd ⟨s, hs, hc⟩ hbad
      | some d => simp
    have hall2 : ∀ s ∈ l2, (chronoParse s.date).isSome := by
      intro s hs
      exact hall1 s (hperm.mem_iff.mpr hs)
    obtain ⟨st1, tp1, h1⟩ := streak_isOk_of_valid l1 hall1
    obtain ⟨st2, tp2, h2⟩ := streak_isOk_of_valid l2 hall2
    have ht1 := streak_ok_points l1 st1 tp1 h1
    have ht2 := streak_ok_points l2 st2 tp2 h2
    have hsum :
        (l1.map fun s => calculate_session_points s.session_type).sum =
          (l2.map fun s => calculate_session_points s.session_type).sum :=
      (hperm.map _).sum_eq
    rw [h1, h2]
    simp only [Except.map]
    rw [ht1, ht2, hsum]

theorem claim5_total_points_perm_witness :
    (calculate_streak_and_points sampleSessions).map Prod.snd =
      (calculate_streak_and_points samplePerm).map Prod.snd :=
  claim5_total_points_perm_invariant sampleSessions samplePerm (by decide)

/-- C6: the buckets of `calculate_trend` with period `"week"` have
non-decreasing keys (in string order, which the sort uses), and their
points sum to the totalPoints of `calculate_streak_and_points` on the
same records. -/
theorem claim6_week_trend_sorted_and_sums (l : List Session)
    (buckets : List WeeklyActivity) (st tp : Nat)
    (ht : calculate_trend l "week" = some buckets)
    (hs : calculate_streak_and_points l = Except.ok (st, tp)) :
    List.Pairwise bucketLe buckets ∧
      (buckets.map (fun w => w.points)).sum = tp := by
  obtain ⟨pairs, hpairs, hb⟩ := calculate_trend_inv l "week" buckets ht
  subst hb
  constructor
  · exact chunkWeekly_sorted _ (List.sorted_insertionSort pairLe pairs)
  · rw [chunkWeekly_sum]
    have h1 : ((List.insertionSort pairLe pairs).map Prod.snd).sum =
        (pairs.map Prod.snd).sum :=
      ((List.perm_insertionSort pairLe pairs).map _).sum_eq
    rw [h1, mapOpt_periodPair_snd "week" l pairs hpairs]
    exact (streak_ok_points l st tp hs).symm

theorem claim6_week_trend_witness :
    List.Pairwise bucketLe
      [(⟨"2023-09-25", 10⟩ : WeeklyActivity), ⟨"2023-10-02", 26⟩] ∧
    (([⟨"2023-09-25", 10⟩, ⟨"2023-10-02", 26⟩] :
      List WeeklyActivity).map (fun w => w.points)).sum = 36 :=
  claim6_week_trend_sorted_and_sums sampleSessions
    [⟨"2023-09-25", 10⟩, ⟨"2023-10-02", 26⟩] 3 36 (by decide) (by decide)

/-- C1 counterexample: `calculate_weekly_streak_bonus` does not re-sort
its input.  `c1perm` is a permutation of the date-sorted `c1sorted`
(indeed the code's own sort maps it to `c1sorted`), all dates are valid,
yet the output on `c1perm` is empty while the output on the sorted
ordering contains a window — refuting the claim that the output on any
permutation equals the output on the date-sorted ordering. -/
theorem claim1_counterexample :
    c1perm.Perm c1sorted ∧
    sortSessions c1perm = c1sorted ∧
    calculate_weekly_streak_bonus c1sorted = some [⟨3, "2023-10-02"⟩] ∧
    calculate_weekly_streak_bonus c1perm = some [] ∧
    calculate_weekly_streak_bonus c1perm ≠
      calculate_weekly_streak_bonus c1sorted := by
  refine ⟨by decide, by decide, by decide, by decide, by decide⟩

/-- C1 (amended): `calculate_weekly_streak_bonus` folds over the records
in the order given, without sorting; its output coincides with the output
on the date-sorted ordering whenever the input is already sorted
ascending by date string (as its callers provide it, via
`SELECT ... ORDER BY date`). -/
theorem claim1_amended_no_resort_sorted_input (l : List Session)
    (hsorted : List.Pairwise sessionLe l) :
    calculate_weekly_streak_bonus l =
      calculate_weekly_streak_bonus (sortSessions l) := by
  unfold sortSessions
  rw [List.Sorted.insertionSort_eq hsorted]

theorem claim1_amended_witness :
    calculate_weekly_streak_bonus c1sorted =
      calculate_weekly_streak_bonus (sortSessions c1sorted) :=
  claim1_amended_no_resort_sorted_input c1sorted (by decide)

/-- C2 counterexample: with one session dated 2022-10-01 and current date
2023-10-15, `calculate_statistics` reports a monthly count of 1, although
zero records fall within the current calendar month (same year and same
month) — refuting the claim that the monthly count equals the number of
sessions logged within the current calendar month. -/
theorem claim2_counterexample :
    calculate_statistics c2l c2cur =
      some (Except.ok ([⟨"2022-09-26", 10⟩], [], 1, 0, 1)) ∧
    c2l.countP (sameCalendarMonth c2cur) = 0 := by
  refine ⟨by decide, by decide⟩

/-- C2 (amended): the monthly count returned by `calculate_statistics`
equals the number of records whose date parses and has the same month
number as the current date — the year is ignored. -/
theorem claim2_amended_month_only (l : List Session) (cur : Date)
    (wt : List WeeklyActivity) (ach : List String) (st yr mo : Nat)
    (h : calculate_statistics l cur =
      some (Except.ok (wt, ach, st, yr, mo))) :
    mo = l.countP (monthMatches cur) := by
  obtain ⟨-, -, -, -, hmo⟩ := stats_ok_inv l cur wt ach st yr mo h
  rw [hmo, List.countP_eq_length_filter]
  rfl

theorem claim2_amended_witness : 1 = c2l.countP (monthMatches c2cur) :=
  claim2_amended_month_only c2l c2cur [⟨"2022-09-26", 10⟩] [] 1 0 1
    (by decide)

/-- C3 counterexample: chrono's parser accepts the non-zero-padded
"2023-10-9".  The two records of `c3l` carry the consecutive ascending
dates 2023-10-09 and 2023-10-10 (one-day steps, no gaps), but the code
sorts by date **string**, and "2023-10-10" < "2023-10-9" as strings, so
`calculate_streak_and_points` processes the dates in descending order and
returns streak 1 instead of the record count 2. -/
theorem claim3_counterexample :
    chronoParse "2023-10-9" = some ⟨2023, 10, 9⟩ ∧
    chronoParse "2023-10-10" = some ⟨2023, 10, 10⟩ ∧
    toDays ⟨2023, 10, 10⟩ - toDays ⟨2023, 10, 9⟩ = 1 ∧
    c3l = [⟨1, "2023-10-9", "1-hour"⟩, ⟨2, "2023-10-10", "1-hour"⟩] ∧
    (calculate_streak_and_points c3l).map Prod.fst = Except.ok 1 ∧
    c3l.length = 2 := by
  refine ⟨by decide, by decide, by decide, by decide, by decide, by decide⟩

/-- C3 (amended): for every non-empty record sequence whose dates, taken
in the code's sorted order (ascending by date string), all parse and
advance by exactly one calendar day between consecutive records,
`calculate_streak_and_points` returns a streak equal to the number of
records. -/
theorem claim3_amended_no_gaps_full_streak (l : List Session)
    (ds : List Date) (hne : l ≠ [])
    (hmap : mapOpt (fun s => chronoParse s.date) (sortSessions l) = some ds)
    (hchain : List.Chain' (fun a b => toDays b - toDays a = 1) ds) :
    (calculate_streak_and_points l).map Prod.fst = Except.ok l.length := by
  cases hs : sortSessions l with
  | nil =>
    have hperm := List.perm_insertionSort sessionLe l
    unfold sortSessions at hs
    rw [hs] at hperm
    exact absurd hperm.symm.eq_nil hne
  | cons s0 rest =>
    rw [hs] at hmap
    obtain ⟨d0, ds2, hd0, hrest, hds⟩ := mapOpt_cons _ s0 rest ds hmap
    subst hds
    obtain ⟨pts2, last2, hfold⟩ :=
      tryFoldStreak_chain rest ds2 1
        (0 + calculate_session_points s0.session_type) d0 hrest hchain
    have hlen : l.length = rest.length + 1 := by
      have hl := List.length_insertionSort sessionLe l
      unfold sortSessions at hs
      rw [hs] at hl
      simpa using hl.symm
    unfold calculate_streak_and_points
    rw [hs]
    simp only [tryFoldStreak, parse_date, hd0, update_streak]
    rw [hfold]
    have h1 : 1 + rest.length = l.length := by omega
    simp only [Except.map]
    rw [h1]

theorem claim3_amended_witness :
    (calculate_streak_and_points sampleSessions).map Prod.fst =
      Except.ok sampleSessions.length :=
  claim3_amended_no_gaps_full_streak sampleSessions
    [⟨2023, 10, 1⟩, ⟨2023, 10, 2⟩, ⟨2023, 10, 3⟩]
    (by decide) (by decide)
    (by
      refine List.chain'_cons.mpr ⟨by decide, ?_⟩
      refine List.chain'_cons.mpr ⟨by decide, ?_⟩
      exact List.chain'_singleton _)
